import Mathlib

/-!
Verification of the tenancy-scoping and document-normalization library
(mendersoftware/go-lib-micro).  Go strings are modelled as lists of
characters; Go byte-level operations on these strings are all
concatenation, prefix tests and suffix extraction, which coincide with the
corresponding list operations on the character lists.
-/

/-- Go strings, modelled as lists of characters. -/
abbrev GoStr := List Char

/-! ## Tenant-scoped naming (package store)

The function DbForTenant is taken from the source file
src/unnamed/part_000, lines 35-37: it returns origDbName + "-" + tenantId
unconditionally.
-/

/-- DbForTenant from the source: returns origDbName + "-" + tenantId. -/
def DbForTenant (tenantId origDbName : GoStr) : GoStr :=
  origDbName ++ ['-'] ++ tenantId

/-- Modelled from the spec: TenantFromName (code: TenantFromDbName), whose
implementation is not among the provided sources (only its tests are).
Returns the substring after the literal prefix baseDb + "-" iff dbName
begins with exactly that prefix; otherwise returns the empty string. -/
def TenantFromDbName (dbName baseDb : GoStr) : GoStr :=
  if (baseDb ++ ['-']) <+: dbName then dbName.drop (baseDb.length + 1) else []

/-- The model of TenantFromDbName reproduces the test vectors of
TestTenantFromDbName in src/unnamed/part_000, lines 165-171. -/
theorem tenantFromDbName_test_vectors :
    TenantFromDbName "ser-vice_dev-adm-tenant1".toList "ser-vice_dev-adm".toList
      = "tenant1".toList ∧
    TenantFromDbName "-tenant1".toList "service_devadm".toList = [] ∧
    TenantFromDbName "service_devadm".toList "service_devadm".toList = [] ∧
    TenantFromDbName "123__--afff-198273913adsjhakdh".toList "123__--afff".toList
      = "198273913adsjhakdh".toList := by
  refine ⟨?_, ?_, ?_, ?_⟩ <;> decide

/-- C1: for every base name and every non-empty tenant identifier,
extracting the tenant back from the derived tenant-scoped name is the
identity: TenantFromDbName (DbForTenant tenant base) base = tenant,
including when base or tenant contain the separator character. -/
theorem dbForTenant_tenantFromDbName_roundtrip (tenant base : GoStr)
    (h : tenant ≠ []) :
    TenantFromDbName (DbForTenant tenant base) base = tenant := by
  unfold TenantFromDbName DbForTenant
  rw [if_pos ⟨tenant, rfl⟩]
  have hlen : (base ++ ['-']).length = base.length + 1 := by simp
  rw [show base ++ ['-'] ++ tenant = (base ++ ['-']) ++ tenant from rfl,
    ← hlen, List.drop_left]

/-- Witness for C1, at a base name and tenant identifier both containing
the separator character. -/
theorem dbForTenant_tenantFromDbName_roundtrip_witness :
    "ten-ant1".toList ≠ ([] : GoStr) ∧
    TenantFromDbName (DbForTenant "ten-ant1".toList "base-db".toList)
      "base-db".toList = "ten-ant1".toList :=
  ⟨by decide,
    dbForTenant_tenantFromDbName_roundtrip "ten-ant1".toList "base-db".toList
      (by decide)⟩

/-- C2 counterexample: DbForTenant applied to the empty tenant identifier
is not the identity on the base name; it appends a trailing separator. -/
theorem dbForTenant_empty_tenant_counterexample :
    DbForTenant [] "basedb".toList = "basedb-".toList ∧
    "basedb-".toList ≠ "basedb".toList := by
  refine ⟨?_, ?_⟩ <;> decide

/-- C2 amended: DbForTenant unconditionally returns base + "-" + tenantID;
in particular, applied to the empty tenant identifier it returns
base + "-", not the base name unchanged, and for a non-empty tenant
identifier the result is base + "-" + tenantID. -/
theorem dbForTenant_always_appends_separator (base : GoStr) :
    DbForTenant [] base = base ++ ['-'] ∧
    ∀ tenant : GoStr, DbForTenant tenant base = base ++ ['-'] ++ tenant := by
  exact ⟨by simp [DbForTenant], fun _ => rfl⟩

/-- C3: TenantFromDbName returns the substring after the literal prefix
base + "-" if and only if the candidate begins with exactly that prefix,
and returns the empty string otherwise; in particular a candidate in which
the base name is followed immediately by non-separator characters yields
the empty string, while a properly separated candidate yields the tenant,
and base names containing the separator are matched on the whole literal
prefix. -/
theorem tenantFromDbName_spec :
    (∀ dbName baseDb : GoStr,
      ((baseDb ++ ['-']) <+: dbName →
        (baseDb ++ ['-']) ++ TenantFromDbName dbName baseDb = dbName) ∧
      (¬ (baseDb ++ ['-']) <+: dbName → TenantFromDbName dbName baseDb = [])) ∧
    TenantFromDbName "basenametenant1".toList "basename".toList = [] ∧
    TenantFromDbName "basename-tenant1".toList "basename".toList
      = "tenant1".toList ∧
    TenantFromDbName "ser-vice_dev-adm-tenant1".toList "ser-vice_dev-adm".toList
      = "tenant1".toList := by
  refine ⟨fun dbName baseDb => ⟨fun h => ?_, fun h => ?_⟩, by decide, by decide,
    by decide⟩
  · obtain ⟨t, ht⟩ := h
    subst ht
    unfold TenantFromDbName
    rw [if_pos ⟨t, rfl⟩]
    have hlen : (baseDb ++ ['-']).length = baseDb.length + 1 := by simp
    rw [← hlen, List.drop_left]
  · unfold TenantFromDbName
    rw [if_neg h]

/-- Witness for C3, applying the general clauses at concrete inputs. -/
theorem tenantFromDbName_spec_witness :
    (("basename".toList ++ ['-']) ++
        TenantFromDbName "basename-tenant1".toList "basename".toList
      = "basename-tenant1".toList) ∧
    TenantFromDbName "basenametenant1".toList "basename".toList = [] :=
  ⟨(tenantFromDbName_spec.1 "basename-tenant1".toList "basename".toList).1
      (by decide),
    (tenantFromDbName_spec.1 "basenametenant1".toList "basename".toList).2
      (by decide)⟩

/-! ## Request-scoped error-accumulation sink (src/accesslog/context.go)

The Go logContext holds a slice of errors, a mutex and an integer cap.
The mutex only serialises concurrent access and does not affect the
sequential state transition, so it is omitted; the fields map is not
involved in the claims about PushError and is omitted as well.  A Go error
value is modelled as an optional message, the nil error being none.
-/

/-- A Go error value: none models a nil error. -/
abbrev GoErr := Option GoStr

/-- DefaultMaxErrors from src/accesslog/context.go, line 24. -/
def DefaultMaxErrors : Int := 5

/-- State of the accesslog logContext: the accumulated errors and the
configured cap (a Go int, hence possibly zero or negative). -/
structure LogContext where
  errors : List GoErr
  maxErrors : Int

/-- PushError from src/accesslog/context.go, lines 50-60: when the cap is
positive and the current number of accumulated errors exceeds it, the push
is rejected and the state unchanged; otherwise the error is appended and
the push accepted. -/
def PushError (c : LogContext) (e : GoErr) : Bool × LogContext :=
  if 0 < c.maxErrors then
    if (c.errors.length : Int) > c.maxErrors then
      (false, c)
    else
      (true, { c with errors := c.errors ++ [e] })
  else
    (true, { c with errors := c.errors ++ [e] })

/-- Iterated PushError: pushes a list of errors in order, collecting the
returned acceptance flags and the final state. -/
def PushAll (c : LogContext) (es : List GoErr) : List Bool × LogContext :=
  match es with
  | [] => ([], c)
  | e :: rest =>
      let r := PushError c e
      let r2 := PushAll r.2 rest
      (r.1 :: r2.1, r2.2)

/-- C4 counterexample: starting from an empty sink with the default cap of
5, six consecutive pushes are all accepted, so the accumulated entries
reach 6, exceeding the cap; the entry count is not bounded by the cap. -/
theorem pushError_six_accepted_at_cap_five :
    (PushAll ⟨[], DefaultMaxErrors⟩ (List.replicate 6 none)).1
      = List.replicate 6 true ∧
    (PushAll ⟨[], DefaultMaxErrors⟩ (List.replicate 6 none)).2.errors.length
      = 6 ∧
    DefaultMaxErrors = 5 := by
  refine ⟨?_, ?_, rfl⟩ <;> rfl

/-- C4 amended: with a positive cap, PushError accepts and appends while
the number of accumulated errors does not exceed the cap, returning true;
once the accumulated count exceeds the cap it returns false and a rejected
push leaves the state unchanged; hence the number of accumulated entries
is bounded by the cap plus one (a push arriving when the count equals the
cap is still accepted). -/
theorem pushError_cap_behavior (c : LogContext) (e : GoErr)
    (hpos : 0 < c.maxErrors) :
    ((c.errors.length : Int) ≤ c.maxErrors →
      (PushError c e).1 = true ∧
      (PushError c e).2.errors = c.errors ++ [e]) ∧
    ((c.errors.length : Int) > c.maxErrors →
      (PushError c e).1 = false ∧ (PushError c e).2 = c) ∧
    ((c.errors.length : Int) ≤ c.maxErrors + 1 →
      ((PushError c e).2.errors.length : Int) ≤ c.maxErrors + 1) := by
  refine ⟨fun hle => ?_, fun hgt => ?_, fun hb => ?_⟩
  · rw [PushError, if_pos hpos, if_neg (by omega)]
    exact ⟨rfl, rfl⟩
  · rw [PushError, if_pos hpos, if_pos hgt]
    exact ⟨rfl, rfl⟩
  · by_cases hgt : (c.errors.length : Int) > c.maxErrors
    · rw [PushError, if_pos hpos, if_pos hgt]
      exact hb
    · rw [PushError, if_pos hpos, if_neg hgt]
      simp only [List.length_append, List.length_singleton]
      push_cast
      omega

/-- Witness for the amended C4, at an empty sink with the default cap. -/
theorem pushError_cap_behavior_witness :
    (0 : Int) < 5 ∧
    (PushError ⟨[], 5⟩ none).1 = true ∧
    (PushError ⟨[], 5⟩ none).2.errors = [none] :=
  ⟨by decide,
    ((pushError_cap_behavior ⟨[], 5⟩ none (by decide)).1 (by decide)).1,
    ((pushError_cap_behavior ⟨[], 5⟩ none (by decide)).1 (by decide)).2⟩

/-- C10: with a cap of zero or a negative value, PushError never rejects:
every call, including with a nil error, appends the error and returns
true, and iterating pushes grows the accumulated list by one entry per
call without bound. -/
theorem pushError_nonpositive_cap_never_rejects (c : LogContext) (e : GoErr)
    (h : c.maxErrors ≤ 0) :
    ((PushError c e).1 = true ∧
      (PushError c e).2.errors = c.errors ++ [e] ∧
      (PushError c e).2.errors.length = c.errors.length + 1) ∧
    (∀ es : List GoErr,
      (PushAll c es).1 = List.replicate es.length true ∧
      (PushAll c es).2.errors.length = c.errors.length + es.length) := by
  have hstep : ∀ c' : LogContext, c'.maxErrors ≤ 0 → ∀ e' : GoErr,
      (PushError c' e').1 = true ∧
      (PushError c' e').2.errors = c'.errors ++ [e'] ∧
      (PushError c' e').2.maxErrors = c'.maxErrors := by
    intro c' h' e'
    rw [PushError, if_neg (by omega)]
    exact ⟨rfl, rfl, rfl⟩
  refine ⟨?_, ?_⟩
  · obtain ⟨h1, h2, _⟩ := hstep c h e
    exact ⟨h1, h2, by rw [h2]; simp⟩
  · intro es
    induction es generalizing c with
    | nil => exact ⟨rfl, rfl⟩
    | cons e' rest ih =>
        obtain ⟨h1, h2, h3⟩ := hstep c h e'
        obtain ⟨ih1, ih2⟩ := ih (PushError c e').2 (by rw [h3]; exact h)
        refine ⟨?_, ?_⟩
        · have hfst : (PushAll c (e' :: rest)).1
              = (PushError c e').1 :: (PushAll (PushError c e').2 rest).1 := rfl
          rw [hfst, h1, ih1, List.length_cons, List.replicate_succ]
        · have hsnd : (PushAll c (e' :: rest)).2
              = (PushAll (PushError c e').2 rest).2 := rfl
          rw [hsnd, ih2, h2, List.length_append, List.length_cons]
          simp
          omega

/-- Witness for C10, at a sink with cap zero and a nil error. -/
theorem pushError_nonpositive_cap_witness :
    (0 : Int) ≤ 0 ∧
    (PushError ⟨[], 0⟩ none).1 = true ∧
    (PushAll ⟨[], 0⟩ (List.replicate 3 none)).2.errors.length = 3 :=
  ⟨by decide,
    ((pushError_nonpositive_cap_never_rejects ⟨[], 0⟩ none (by decide)).1).1,
    by
      have := ((pushError_nonpositive_cap_never_rejects ⟨[], 0⟩ none
        (by decide)).2 (List.replicate 3 none)).2
      simpa using this⟩

/-! ## Document flattener (package doc)

The implementation of FlattenDocument is not among the provided sources;
only its tests (src/unnamed/part_007) are.  The model below follows the
spec, section 4.1.  A document value is Structured (a list of fields, each
carrying the descriptor reflection exposes: the Go identifier, the
optional explicit tag name, the omit-if-empty flag, whether the field is
exported, and whether its value is the zero value of its type),
UnorderedMapping (a list of key/value entries; Go map iteration order is
abstracted as the list order, which the spec leaves unspecified but
stable), a leaf value, or an uninspectable (invalid/zero-type) value.
Pointers to structs and mappings are modelled as transparent, as the spec
admits pointers to either document kind.
-/

/-- Leaf field values: scalars and slices, carried opaquely.  Float values
are carried as an opaque printed token, since their numerics play no role
in flattening. -/
inductive Leaf where
  | str (s : GoStr)
  | int (n : Int)
  | floatTok (s : GoStr)
  | intSlice (l : List Int)
  | inQuery (l : List Int)
  deriving DecidableEq

/-- The descriptor reflection exposes for one struct field. -/
structure FieldDesc where
  goName : GoStr
  tagName : Option GoStr
  omitempty : Bool
  exported : Bool
  isZero : Bool

mutual
/-- A document field value: a leaf, an uninspectable value, a nested
struct, or a nested string-keyed mapping. -/
inductive FieldValue where
  | leaf (v : Leaf)
  | uninspectable
  | structured (fs : FieldList)
  | mapping (es : EntryList)
/-- The fields of a Structured value, in declaration order. -/
inductive FieldList where
  | nil
  | cons (d : FieldDesc) (v : FieldValue) (rest : FieldList)
/-- The entries of an UnorderedMapping value. -/
inductive EntryList where
  | nil
  | cons (k : GoStr) (v : FieldValue) (rest : EntryList)
end

/-- A flat document: an ordered list of dotted-path keys and leaf values. -/
abbrev FlatDoc := List (GoStr × Leaf)

/-- Resolved field name: the explicit tag name wins; otherwise the
lower-cased Go field identifier. -/
def FieldDesc.resolvedName (d : FieldDesc) : GoStr :=
  match d.tagName with
  | some n => n
  | none => d.goName.map Char.toLower

/-- Whether a field is emitted at all: un-exported fields are skipped, and
so is a field marked omit-if-empty whose value is the zero value. -/
def FieldDesc.included (d : FieldDesc) : Bool :=
  d.exported && !(d.omitempty && d.isZero)

/-- Join a parent path and a child key with the path separator; an empty
parent path (the top level) leaves the child key unchanged. -/
def joinKey (pfx key : GoStr) : GoStr :=
  if pfx = [] then key else pfx ++ ['.'] ++ key

/-- The caller-supplied leaf rewrite hook. -/
abbrev Transform := GoStr → Leaf → GoStr × Leaf

/-- The identity rewrite hook, used when no options are supplied. -/
def idTransform : Transform := fun k v => (k, v)

/-- Flattener errors, per the spec taxonomy: a non-document argument, or a
value that cannot be introspected during descent. -/
inductive FlattenError where
  | invalidArgumentType (typeName : GoStr)
  | uninspectableValue
  deriving DecidableEq

mutual
/-- Flatten one field value situated at path pfx. -/
def flattenValue (tr : Transform) (pfx : GoStr) :
    FieldValue → Except FlattenError FlatDoc
  | .leaf v => Except.ok [tr pfx v]
  | .uninspectable => Except.error FlattenError.uninspectableValue
  | .structured fs => flattenFields tr pfx fs
  | .mapping es => flattenEntries tr pfx es
/-- Flatten the fields of a struct situated at path pfx, in declaration
order, skipping non-included fields. -/
def flattenFields (tr : Transform) (pfx : GoStr) :
    FieldList → Except FlattenError FlatDoc
  | .nil => Except.ok []
  | .cons d v rest =>
      if d.included then
        match flattenValue tr (joinKey pfx d.resolvedName) v with
        | Except.error e => Except.error e
        | Except.ok head =>
            match flattenFields tr pfx rest with
            | Except.error e => Except.error e
            | Except.ok tail => Except.ok (head ++ tail)
      else flattenFields tr pfx rest
/-- Flatten the entries of a mapping situated at path pfx. -/
def flattenEntries (tr : Transform) (pfx : GoStr) :
    EntryList → Except FlattenError FlatDoc
  | .nil => Except.ok []
  | .cons k v rest =>
      match flattenValue tr (joinKey pfx k) v with
      | Except.error e => Except.error e
      | Except.ok head =>
          match flattenEntries tr pfx rest with
          | Except.error e => Except.error e
          | Except.ok tail => Except.ok (head ++ tail)
end

/-- The argument FlattenDocument receives: a struct, a mapping (pointers
to either are modelled as transparent), or any other value, which carries
only the name of its type. -/
inductive FlattenInput where
  | structured (fs : FieldList)
  | mapping (es : EntryList)
  | scalar (typeName : GoStr)

/-- Options recognized by the flattener: an optional leaf rewrite hook. -/
structure FlattenOptions where
  transform : Option Transform

/-- Modelled from the spec: FlattenDocument (package doc), whose
implementation is not among the provided sources (only its tests are).
Dispatches on the argument kind: structs and mappings are flattened from
the empty path; any other argument yields an InvalidArgumentType error
carrying the name of the offending type. -/
def FlattenDocument (input : FlattenInput) (opts : FlattenOptions) :
    Except FlattenError FlatDoc :=
  let tr := opts.transform.getD idTransform
  match input with
  | .structured fs => flattenFields tr [] fs
  | .mapping es => flattenEntries tr [] es
  | .scalar ty => Except.error (FlattenError.invalidArgumentType ty)

/-- The default options: no rewrite hook. -/
def defaultFlattenOptions : FlattenOptions := ⟨none⟩

/-- Whether a field value is itself a nested document (a struct or a
mapping). -/
def FieldValue.isNested : FieldValue → Bool
  | .structured _ => true
  | .mapping _ => true
  | _ => false

/-- Helper: with the identity rewrite hook, every key emitted for a value
situated at a non-empty path extends that path, and the keys emitted for
the fields or entries of a nested document at a non-empty path all extend
the path followed by the separator.  Proved by strong induction on the
size of the value. -/
theorem flatten_key_extends_aux :
    ∀ n : Nat,
      (∀ v : FieldValue, sizeOf v ≤ n → ∀ pfx d, pfx ≠ [] →
        flattenValue idTransform pfx v = Except.ok d →
        ∀ p ∈ d, pfx <+: p.1 ∧
          (v.isNested = true → (pfx ++ ['.']) <+: p.1)) ∧
      (∀ fs : FieldList, sizeOf fs ≤ n → ∀ pfx d, pfx ≠ [] →
        flattenFields idTransform pfx fs = Except.ok d →
        ∀ p ∈ d, (pfx ++ ['.']) <+: p.1) ∧
      (∀ es : EntryList, sizeOf es ≤ n → ∀ pfx d, pfx ≠ [] →
        flattenEntries idTransform pfx es = Except.ok d →
        ∀ p ∈ d, (pfx ++ ['.']) <+: p.1) := by
  intro n
  induction n using Nat.strong_induction_on with
  | _ n ih =>
    refine ⟨?_, ?_, ?_⟩
    · intro v hs pfx d hpfx h p hp
      cases v with
      | leaf x =>
          simp only [flattenValue, idTransform, Except.ok.injEq] at h
          subst h
          simp only [List.mem_singleton] at hp
          subst hp
          refine ⟨⟨[], by simp⟩, ?_⟩
          intro hnest
          simp [FieldValue.isNested] at hnest
      | uninspectable => simp [flattenValue] at h
      | structured fs =>
          simp only [FieldValue.structured.sizeOf_spec] at hs
          have hlt : sizeOf fs < n := by omega
          simp only [flattenValue] at h
          have hk := (ih (sizeOf fs) hlt).2.1 fs le_rfl pfx d hpfx h p hp
          have hpp : pfx <+: pfx ++ ['.'] := ⟨['.'], rfl⟩
          exact ⟨hpp.trans hk, fun _ => hk⟩
      | mapping es =>
          simp only [FieldValue.mapping.sizeOf_spec] at hs
          have hlt : sizeOf es < n := by omega
          simp only [flattenValue] at h
          have hk := (ih (sizeOf es) hlt).2.2 es le_rfl pfx d hpfx h p hp
          have hpp : pfx <+: pfx ++ ['.'] := ⟨['.'], rfl⟩
          exact ⟨hpp.trans hk, fun _ => hk⟩
    · intro fs hs pfx d hpfx h p hp
      cases fs with
      | nil =>
          simp only [flattenFields, Except.ok.injEq] at h
          subst h
          simp at hp
      | cons dsc v rest =>
          simp only [FieldList.cons.sizeOf_spec] at hs
          have hvlt : sizeOf v < n := by omega
          have hrlt : sizeOf rest < n := by omega
          simp only [flattenFields] at h
          split at h
          · cases hv : flattenValue idTransform (joinKey pfx dsc.resolvedName) v with
            | error e => rw [hv] at h; simp at h
            | ok head =>
                rw [hv] at h
                cases hr : flattenFields idTransform pfx rest with
                | error e => rw [hr] at h; simp at h
                | ok tail =>
                    rw [hr] at h
                    simp only [Except.ok.injEq] at h
                    subst h
                    rcases List.mem_append.mp hp with hph | hpt
                    · have hpfx2 : joinKey pfx dsc.resolvedName ≠ [] := by
                        simp [joinKey, hpfx]
                      have hk := ((ih (sizeOf v) hvlt).1 v le_rfl _ head hpfx2
                        hv p hph).1
                      have hstep : (pfx ++ ['.']) <+: joinKey pfx dsc.resolvedName := by
                        rw [joinKey, if_neg hpfx]
                        exact ⟨dsc.resolvedName, rfl⟩
                      exact hstep.trans hk
                    · exact (ih (sizeOf rest) hrlt).2.1 rest le_rfl pfx tail
                        hpfx hr p hpt
          · exact (ih (sizeOf rest) hrlt).2.1 rest le_rfl pfx d hpfx h p hp
    · intro es hs pfx d hpfx h p hp
      cases es with
      | nil =>
          simp only [flattenEntries, Except.ok.injEq] at h
          subst h
          simp at hp
      | cons k v rest =>
          simp only [EntryList.cons.sizeOf_spec] at hs
          have hvlt : sizeOf v < n := by omega
          have hrlt : sizeOf rest < n := by omega
          simp only [flattenEntries] at h
          cases hv : flattenValue idTransform (joinKey pfx k) v with
          | error e => rw [hv] at h; simp at h
          | ok head =>
              rw [hv] at h
              cases hr : flattenEntries idTransform pfx rest with
              | error e => rw [hr] at h; simp at h
              | ok tail =>
                  rw [hr] at h
                  simp only [Except.ok.injEq] at h
                  subst h
                  rcases List.mem_append.mp hp with hph | hpt
                  · have hpfx2 : joinKey pfx k ≠ [] := by
                      simp [joinKey, hpfx]
                    have hk := ((ih (sizeOf v) hvlt).1 v le_rfl _ head hpfx2
                      hv p hph).1
                    have hstep : (pfx ++ ['.']) <+: joinKey pfx k := by
                      rw [joinKey, if_neg hpfx]
                      exact ⟨k, rfl⟩
                    exact hstep.trans hk
                  · exact (ih (sizeOf rest) hrlt).2.2 rest le_rfl pfx tail
                      hpfx hr p hpt

/-- The nested inner struct of the first TestFlattenDocument case. -/
def nestedStructFields : FieldList :=
  .cons ⟨"NestedVal".toList, some "nested_val".toList, false, true, false⟩
    (.leaf (.str "test".toList)) .nil

/-- The struct of the first TestFlattenDocument case (src/unnamed/part_007,
lines 99-115): a string field tagged omit-if-empty with a non-zero value, a
float field and an int-slice field with explicit tag names, and an
untagged nested struct field. -/
def sampleStructFields : FieldList :=
  .cons ⟨"String".toList, none, true, true, false⟩
    (.leaf (.str "foo".toList))
    (.cons ⟨"Float".toList, some "floatie_mc_float_face".toList, false, true,
        false⟩
      (.leaf (.floatTok "123.456".toList))
      (.cons ⟨"IntSlice".toList, some "slice".toList, false, true, false⟩
        (.leaf (.intSlice [1, 2, 3, 4, 5, 6]))
        (.cons ⟨"Struct".toList, none, false, true, false⟩
          (.structured nestedStructFields) .nil)))

/-- The expected flattened output of the first TestFlattenDocument case. -/
def sampleStructFlattened : FlatDoc :=
  [("string".toList, .str "foo".toList),
   ("floatie_mc_float_face".toList, .floatTok "123.456".toList),
   ("slice".toList, .intSlice [1, 2, 3, 4, 5, 6]),
   ("struct.nested_val".toList, .str "test".toList)]

/-- C7: with default options, flattening a struct or mapping field value
situated at a parent key emits each flattened child key prefixed with the
parent key and the path separator, and the parent key itself never appears
as a standalone entry; concretely, flattening the nested test struct
yields the pairs string/foo and struct.nested_val/test, and no pair whose
key is struct. -/
theorem flattenDocument_nested_prefix_keys :
    (∀ (pfx : GoStr) (v : FieldValue) (d : FlatDoc), pfx ≠ [] →
      v.isNested = true → flattenValue idTransform pfx v = Except.ok d →
      ∀ p ∈ d, (pfx ++ ['.']) <+: p.1 ∧ p.1 ≠ pfx) ∧
    FlattenDocument (.structured sampleStructFields) defaultFlattenOptions
      = Except.ok sampleStructFlattened ∧
    ("string".toList, Leaf.str "foo".toList) ∈ sampleStructFlattened ∧
    ("struct.nested_val".toList, Leaf.str "test".toList)
      ∈ sampleStructFlattened ∧
    "struct".toList ∉ sampleStructFlattened.map Prod.fst := by
  refine ⟨?_, by rfl, by decide, by decide, by decide⟩
  intro pfx v d hpfx hnest h p hp
  have hk := ((flatten_key_extends_aux (sizeOf v)).1 v le_rfl pfx d hpfx h
    p hp).2 hnest
  refine ⟨hk, ?_⟩
  intro heq
  have hle := hk.length_le
  rw [heq] at hle
  simp at hle

/-- Witness for C7, applying the general clause to the nested struct field
of the test struct, situated at its parent key. -/
theorem flattenDocument_nested_prefix_keys_witness :
    ("struct".toList ++ ['.']) <+: "struct.nested_val".toList ∧
    "struct.nested_val".toList ≠ "struct".toList :=
  flattenDocument_nested_prefix_keys.1 "struct".toList
    (.structured nestedStructFields)
    [("struct.nested_val".toList, Leaf.str "test".toList)]
    (by decide) (by rfl) (by rfl)
    ("struct.nested_val".toList, Leaf.str "test".toList) (by decide)

/-- A struct whose omit-if-empty string field holds the zero value and
whose second field is un-exported, mirroring the second
TestFlattenDocument case (src/unnamed/part_007, lines 125-138). -/
def omitStructFields : FieldList :=
  .cons ⟨"String".toList, none, true, true, true⟩ (.leaf (.str []))
    (.cons ⟨"unexported".toList, none, false, false, false⟩
      (.leaf (.str "should not show up in result".toList))
      (.cons ⟨"Float".toList, some "floatie_mc_float_face".toList, false,
          true, false⟩
        (.leaf (.floatTok "123.456".toList)) .nil))

/-- The same struct with a non-zero value in the omit-if-empty field. -/
def omitPresentFields : FieldList :=
  .cons ⟨"String".toList, none, true, true, false⟩
    (.leaf (.str "foo".toList))
    (.cons ⟨"unexported".toList, none, false, false, false⟩
      (.leaf (.str "should not show up in result".toList))
      (.cons ⟨"Float".toList, some "floatie_mc_float_face".toList, false,
          true, false⟩
        (.leaf (.floatTok "123.456".toList)) .nil))

/-- C8: for a struct input, an un-exported field contributes nothing under
any key, a field tagged omit-if-empty whose value is the zero value
contributes nothing, and an included leaf field is emitted under its
resolved name ahead of the remaining fields, so fields appear in
declaration order; concretely, the omit-if-empty string field of the test
struct is absent from the output when zero and present under key string
when non-zero, and the un-exported field is never present. -/
theorem flattenDocument_field_rules :
    (∀ (tr : Transform) (pfx : GoStr) (dsc : FieldDesc) (v : FieldValue)
        (rest : FieldList), dsc.exported = false →
      flattenFields tr pfx (.cons dsc v rest) = flattenFields tr pfx rest) ∧
    (∀ (tr : Transform) (pfx : GoStr) (dsc : FieldDesc) (v : FieldValue)
        (rest : FieldList), dsc.omitempty = true → dsc.isZero = true →
      flattenFields tr pfx (.cons dsc v rest) = flattenFields tr pfx rest) ∧
    (∀ (tr : Transform) (pfx : GoStr) (dsc : FieldDesc) (x : Leaf)
        (rest : FieldList) (tail : FlatDoc), dsc.included = true →
      flattenFields tr pfx rest = Except.ok tail →
      flattenFields tr pfx (.cons dsc (.leaf x) rest)
        = Except.ok (tr (joinKey pfx dsc.resolvedName) x :: tail)) ∧
    FlattenDocument (.structured omitStructFields) defaultFlattenOptions
      = Except.ok [("floatie_mc_float_face".toList,
          Leaf.floatTok "123.456".toList)] ∧
    FlattenDocument (.structured omitPresentFields) defaultFlattenOptions
      = Except.ok [("string".toList, Leaf.str "foo".toList),
          ("floatie_mc_float_face".toList,
            Leaf.floatTok "123.456".toList)] := by
  refine ⟨fun tr pfx dsc v rest hexp => ?_,
    fun tr pfx dsc v rest h1 h2 => ?_,
    fun tr pfx dsc x rest tail hinc htail => ?_, by rfl, by rfl⟩
  · simp only [flattenFields]
    rw [if_neg]
    simp [FieldDesc.included, hexp]
  · simp only [flattenFields]
    rw [if_neg]
    simp [FieldDesc.included, h1, h2]
  · simp only [flattenFields, flattenValue]
    rw [if_pos hinc, htail]
    simp

/-- Witness for C8: the un-exported field clause and the included leaf
clause, applied at concrete fields. -/
theorem flattenDocument_field_rules_witness :
    flattenFields idTransform []
        (.cons ⟨"unexported".toList, none, false, false, false⟩
          (.leaf (.str "x".toList)) .nil)
      = flattenFields idTransform [] .nil ∧
    flattenFields idTransform []
        (.cons ⟨"String".toList, none, true, true, false⟩
          (.leaf (.str "foo".toList)) .nil)
      = Except.ok [("string".toList, Leaf.str "foo".toList)] :=
  ⟨flattenDocument_field_rules.1 idTransform []
      ⟨"unexported".toList, none, false, false, false⟩
      (.leaf (.str "x".toList)) .nil rfl,
    flattenDocument_field_rules.2.2.1 idTransform []
      ⟨"String".toList, none, true, true, false⟩
      (.str "foo".toList) .nil [] rfl rfl⟩

mutual
/-- Whether flattening this value will encounter an uninspectable value. -/
def FieldValue.hasUninsp : FieldValue → Bool
  | .leaf _ => false
  | .uninspectable => true
  | .structured fs => fs.hasUninsp
  | .mapping es => es.hasUninsp
/-- Whether flattening these struct fields will encounter an uninspectable
value: only fields that are actually emitted are traversed. -/
def FieldList.hasUninsp : FieldList → Bool
  | .nil => false
  | .cons d v rest => (d.included && v.hasUninsp) || rest.hasUninsp
/-- Whether flattening these mapping entries will encounter an
uninspectable value. -/
def EntryList.hasUninsp : EntryList → Bool
  | .nil => false
  | .cons _ v rest => v.hasUninsp || rest.hasUninsp
end

/-- Helper: flattening a value errs, with the UninspectableValue error,
exactly when an uninspectable value is traversed, and succeeds otherwise,
for every rewrite hook and path. -/
theorem flatten_uninsp_aux :
    ∀ n : Nat,
      (∀ v : FieldValue, sizeOf v ≤ n → ∀ (tr : Transform) (pfx : GoStr),
        (v.hasUninsp = true → flattenValue tr pfx v
          = Except.error FlattenError.uninspectableValue) ∧
        (v.hasUninsp = false → ∃ d, flattenValue tr pfx v = Except.ok d)) ∧
      (∀ fs : FieldList, sizeOf fs ≤ n → ∀ (tr : Transform) (pfx : GoStr),
        (fs.hasUninsp = true → flattenFields tr pfx fs
          = Except.error FlattenError.uninspectableValue) ∧
        (fs.hasUninsp = false → ∃ d, flattenFields tr pfx fs
          = Except.ok d)) ∧
      (∀ es : EntryList, sizeOf es ≤ n → ∀ (tr : Transform) (pfx : GoStr),
        (es.hasUninsp = true → flattenEntries tr pfx es
          = Except.error FlattenError.uninspectableValue) ∧
        (es.hasUninsp = false → ∃ d, flattenEntries tr pfx es
          = Except.ok d)) := by
  intro n
  induction n using Nat.strong_induction_on with
  | _ n ih =>
    refine ⟨?_, ?_, ?_⟩
    · intro v hs tr pfx
      cases v with
      | leaf x =>
          exact ⟨fun habs => by simp [FieldValue.hasUninsp] at habs,
            fun _ => ⟨[tr pfx x], rfl⟩⟩
      | uninspectable =>
          exact ⟨fun _ => rfl,
            fun habs => by simp [FieldValue.hasUninsp] at habs⟩
      | structured fs =>
          simp only [FieldValue.structured.sizeOf_spec] at hs
          have hlt : sizeOf fs < n := by omega
          have hdel := (ih (sizeOf fs) hlt).2.1 fs le_rfl tr pfx
          exact ⟨fun hu => by
              simp only [flattenValue]
              exact hdel.1 (by simpa [FieldValue.hasUninsp] using hu),
            fun hu => by
              simp only [flattenValue]
              exact hdel.2 (by simpa [FieldValue.hasUninsp] using hu)⟩
      | mapping es =>
          simp only [FieldValue.mapping.sizeOf_spec] at hs
          have hlt : sizeOf es < n := by omega
          have hdel := (ih (sizeOf es) hlt).2.2 es le_rfl tr pfx
          exact ⟨fun hu => by
              simp only [flattenValue]
              exact hdel.1 (by simpa [FieldValue.hasUninsp] using hu),
            fun hu => by
              simp only [flattenValue]
              exact hdel.2 (by simpa [FieldValue.hasUninsp] using hu)⟩
    · intro fs hs tr pfx
      cases fs with
      | nil =>
          exact ⟨fun habs => by simp [FieldList.hasUninsp] at habs,
            fun _ => ⟨[], rfl⟩⟩
      | cons dsc v rest =>
          simp only [FieldList.cons.sizeOf_spec] at hs
          have hvlt : sizeOf v < n := by omega
          have hrlt : sizeOf rest < n := by omega
          have hv := (ih (sizeOf v) hvlt).1 v le_rfl tr
            (joinKey pfx dsc.resolvedName)
          have hr := (ih (sizeOf rest) hrlt).2.1 rest le_rfl tr pfx
          by_cases hinc : dsc.included = true
          · constructor
            · intro hu
              simp only [FieldList.hasUninsp, hinc, Bool.true_and,
                Bool.or_eq_true] at hu
              simp only [flattenFields, if_pos hinc]
              cases hvu : v.hasUninsp with
              | true =>
                  rw [hv.1 hvu]
              | false =>
                  obtain ⟨d, hd⟩ := hv.2 hvu
                  rw [hd]
                  have hru : rest.hasUninsp = true := by
                    rcases hu with hu | hu
                    · rw [hvu] at hu; exact absurd hu (by simp)
                    · exact hu
                  rw [hr.1 hru]
            · intro hu
              simp only [FieldList.hasUninsp, hinc, Bool.true_and,
                Bool.or_eq_false_iff] at hu
              obtain ⟨d1, hd1⟩ := hv.2 hu.1
              obtain ⟨d2, hd2⟩ := hr.2 hu.2
              refine ⟨d1 ++ d2, ?_⟩
              simp only [flattenFields, if_pos hinc]
              rw [hd1, hd2]
          · have hfalse : dsc.included = false := by simpa using hinc
            have hskip : ∀ b : Bool,
                (FieldList.cons dsc v rest).hasUninsp = b →
                rest.hasUninsp = b := by
              intro b hb
              simpa [FieldList.hasUninsp, hfalse] using hb
            constructor
            · intro hu
              simp only [flattenFields, if_neg hinc]
              exact hr.1 (hskip true hu)
            · intro hu
              obtain ⟨d, hd⟩ := hr.2 (hskip false hu)
              exact ⟨d, by simp only [flattenFields, if_neg hinc]; exact hd⟩
    · intro es hs tr pfx
      cases es with
      | nil =>
          exact ⟨fun habs => by simp [EntryList.hasUninsp] at habs,
            fun _ => ⟨[], rfl⟩⟩
      | cons k v rest =>
          simp only [EntryList.cons.sizeOf_spec] at hs
          have hvlt : sizeOf v < n := by omega
          have hrlt : sizeOf rest < n := by omega
          have hv := (ih (sizeOf v) hvlt).1 v le_rfl tr (joinKey pfx k)
          have hr := (ih (sizeOf rest) hrlt).2.2 rest le_rfl tr pfx
          constructor
          · intro hu
            simp only [EntryList.hasUninsp, Bool.or_eq_true] at hu
            simp only [flattenEntries]
            cases hvu : v.hasUninsp with
            | true => rw [hv.1 hvu]
            | false =>
                obtain ⟨d, hd⟩ := hv.2 hvu
                rw [hd]
                have hru : rest.hasUninsp = true := by
                  rcases hu with hu | hu
                  · rw [hvu] at hu; exact absurd hu (by simp)
                  · exact hu
                rw [hr.1 hru]
          · intro hu
            simp only [EntryList.hasUninsp, Bool.or_eq_false_iff] at hu
            obtain ⟨d1, hd1⟩ := hv.2 hu.1
            obtain ⟨d2, hd2⟩ := hr.2 hu.2
            refine ⟨d1 ++ d2, ?_⟩
            simp only [flattenEntries]
            rw [hd1, hd2]

/-- C9: FlattenDocument returns an error, never a silently degraded
result, exactly in the two spec error conditions: an input that is neither
a struct nor a mapping yields an InvalidArgumentType error carrying the
offending type name, and an uninspectable value encountered while
descending a mapping (or a struct) yields an UninspectableValue error;
when no uninspectable value is traversed, flattening succeeds, so nothing
is silently skipped; concretely, a bare string input errs with its type
name, and a mapping holding a type-less nil value errs with
UninspectableValue. -/
theorem flattenDocument_error_conditions :
    (∀ (ty : GoStr) (opts : FlattenOptions),
      FlattenDocument (.scalar ty) opts
        = Except.error (FlattenError.invalidArgumentType ty)) ∧
    (∀ (es : EntryList) (opts : FlattenOptions), es.hasUninsp = true →
      FlattenDocument (.mapping es) opts
        = Except.error FlattenError.uninspectableValue) ∧
    (∀ (es : EntryList) (opts : FlattenOptions), es.hasUninsp = false →
      ∃ d, FlattenDocument (.mapping es) opts = Except.ok d) ∧
    (∀ (fs : FieldList) (opts : FlattenOptions), fs.hasUninsp = true →
      FlattenDocument (.structured fs) opts
        = Except.error FlattenError.uninspectableValue) ∧
    (∀ (fs : FieldList) (opts : FlattenOptions), fs.hasUninsp = false →
      ∃ d, FlattenDocument (.structured fs) opts = Except.ok d) ∧
    FlattenDocument (.mapping (.cons "invalid".toList .uninspectable .nil))
        defaultFlattenOptions
      = Except.error FlattenError.uninspectableValue ∧
    FlattenDocument (.scalar "string".toList) defaultFlattenOptions
      = Except.error (FlattenError.invalidArgumentType "string".toList) := by
  refine ⟨fun ty opts => rfl,
    fun es opts hu => ?_, fun es opts hu => ?_,
    fun fs opts hu => ?_, fun fs opts hu => ?_, by rfl, by rfl⟩
  · exact ((flatten_uninsp_aux (sizeOf es)).2.2 es le_rfl
      (opts.transform.getD idTransform) []).1 hu
  · exact ((flatten_uninsp_aux (sizeOf es)).2.2 es le_rfl
      (opts.transform.getD idTransform) []).2 hu
  · exact ((flatten_uninsp_aux (sizeOf fs)).2.1 fs le_rfl
      (opts.transform.getD idTransform) []).1 hu
  · exact ((flatten_uninsp_aux (sizeOf fs)).2.1 fs le_rfl
      (opts.transform.getD idTransform) []).2 hu

/-- Witness for C9: the uninspectable-mapping clause applied at the
type-less test mapping, and the success clause applied at a clean
mapping. -/
theorem flattenDocument_error_conditions_witness :
    FlattenDocument
        (.mapping (.cons "invalid".toList .uninspectable .nil))
        defaultFlattenOptions
      = Except.error FlattenError.uninspectableValue ∧
    ∃ d, FlattenDocument
        (.mapping (.cons "key".toList (.leaf (.str "value".toList)) .nil))
        defaultFlattenOptions
      = Except.ok d :=
  ⟨flattenDocument_error_conditions.2.1
      (.cons "invalid".toList .uninspectable .nil) defaultFlattenOptions rfl,
    flattenDocument_error_conditions.2.2.1
      (.cons "key".toList (.leaf (.str "value".toList)) .nil)
      defaultFlattenOptions rfl⟩

/-! ## Tenant scoper (package store, WithTenantID)

The implementation of WithTenantID is not among the provided sources; only
two revisions of its tests are (src/unnamed/part_000).  The model below
follows the spec, section 4.2.  Its output document carries arbitrary
field values, so nested documents pass through unchanged.  The
discriminator pair is appended after the original fields, the position of
the later test revision; the spec, section 9, leaves the position open and
the claims here do not depend on it.  The function is total: it never
errs; unrecognized inputs and failing custom encoders yield the empty
document.
-/

/-- An ordered document whose values are arbitrary field values. -/
abbrev BsonD := List (GoStr × FieldValue)

/-- The outcome of invoking a CustomEncoded value: the encode call fails,
the encoded bytes do not parse back as a document, or a document is
obtained. -/
inductive EncodeOutcome where
  | encodeFailure
  | decodeFailure
  | ok (d : BsonD)

/-- The document-shaped argument of the tenant scoper: ordered pairs, an
unordered mapping (iteration order abstracted as list order), a struct, a
value with a custom encoder, or anything else. -/
inductive DocValue where
  | orderedPairs (d : BsonD)
  | unorderedMapping (m : BsonD)
  | structured (fs : FieldList)
  | customEncoded (outcome : EncodeOutcome)
  | unrecognized (typeName : GoStr)

/-- The fixed tenant-discriminator field name. -/
def FieldTenantID : GoStr := "tenant_id".toList

/-- Top-level conversion of struct fields to ordered pairs, honoring tag
names and the skip rules; values are carried through as-is, not
deep-flattened. -/
def structTopPairs : FieldList → BsonD
  | .nil => []
  | .cons d v rest =>
      if d.included then (d.resolvedName, v) :: structTopPairs rest
      else structTopPairs rest

/-- Modelled from the spec: ScopeToTenant (code: WithTenantID), whose
implementation is not among the provided sources (only its tests are).
Recognized document inputs gain the discriminator pair holding the tenant
identifier; a custom-encoded value whose encoding fails either way, and
any unrecognized value, yield the empty document.  The return type is a
plain document: the operation cannot return an error. -/
def WithTenantID (tenant : GoStr) (v : DocValue) : BsonD :=
  match v with
  | .orderedPairs d => d ++ [(FieldTenantID, .leaf (.str tenant))]
  | .unorderedMapping m => m ++ [(FieldTenantID, .leaf (.str tenant))]
  | .structured fs =>
      structTopPairs fs ++ [(FieldTenantID, .leaf (.str tenant))]
  | .customEncoded (.ok d) => d ++ [(FieldTenantID, .leaf (.str tenant))]
  | .customEncoded .encodeFailure => []
  | .customEncoded .decodeFailure => []
  | .unrecognized _ => []

/-- Whether the scoper input is a recognized document shape: ordered
pairs, an unordered mapping, or a struct. -/
def DocValue.isRecognizedDoc : DocValue → Bool
  | .orderedPairs _ => true
  | .unorderedMapping _ => true
  | .structured _ => true
  | _ => false

/-- C5: for every recognized document input, WithTenantID invoked with the
empty tenant identifier still produces the tenant-discriminator field,
holding the empty string, in the output document: the discriminator pair
is never omitted for the empty tenant. -/
theorem withTenantID_empty_tenant_keeps_discriminator (v : DocValue)
    (h : v.isRecognizedDoc = true) :
    (FieldTenantID, FieldValue.leaf (Leaf.str [])) ∈ WithTenantID [] v := by
  cases v <;> simp_all [WithTenantID, DocValue.isRecognizedDoc]

/-- Witness for C5, at the ordered-pairs document of the tests. -/
theorem withTenantID_empty_tenant_keeps_discriminator_witness :
    (DocValue.orderedPairs
        [("key".toList, FieldValue.leaf (Leaf.str "value".toList))]
      ).isRecognizedDoc = true ∧
    (FieldTenantID, FieldValue.leaf (Leaf.str []))
      ∈ WithTenantID []
        (.orderedPairs
          [("key".toList, FieldValue.leaf (Leaf.str "value".toList))]) :=
  ⟨rfl, withTenantID_empty_tenant_keeps_discriminator
    (.orderedPairs [("key".toList, FieldValue.leaf (Leaf.str "value".toList))])
    rfl⟩

/-- C6: WithTenantID is a total function into documents, so it can neither
return an error nor panic, and for every unrecognized input and for every
custom-encoded input whose encode call fails or whose encoded bytes do not
parse back as a document it returns the empty document, propagating no
failure. -/
theorem withTenantID_degrades_to_empty (tenant : GoStr) (ty : GoStr) :
    WithTenantID tenant (.unrecognized ty) = [] ∧
    WithTenantID tenant (.customEncoded .encodeFailure) = [] ∧
    WithTenantID tenant (.customEncoded .decodeFailure) = [] :=
  ⟨rfl, rfl, rfl⟩
